import Mathlib

/-!
Verification of the incremental image-processing cache of
`scripts/extract-images.js` (static-site generator for a photography
portfolio).  The definitions below are a shallow embedding of the
cache store, change detector, derivation engine and orchestrator loops
of that script; file-system effects (written files, created
directories) are made explicit as data, and the image library (sharp)
is modelled by carrying the deterministic attributes it extracts from
a source file (dimensions, placeholder bytes, dominant colour) on the
model of the file itself.
-/

/-- Model of one source image file on disk.  `hash` is the md5 digest
`getFileHash` computes from the bytes; `valid` says whether sharp can
parse the file as an image (`metadata()` succeeds); `placeholderB64`
is the base64 of the 20px blurred jpeg the placeholder step encodes;
`dominantOk`/`dominantHex` model the dominant-colour extraction, which
can fail independently. All of these are deterministic functions of
the file bytes, so they are carried as fields. -/
structure SourceFile where
  hash : String
  width : Nat
  height : Nat
  valid : Bool
  placeholderB64 : String
  dominantOk : Bool
  dominantHex : String
deriving Repr, DecidableEq

/-- `results` record of `processImage` (lines 529-577): `sizes` holds
the keys of the `results.sizes` object (the widths actually produced). -/
structure ProcessResult where
  sizes : List Nat
  placeholder : String
  aspectRatio : ℚ
  width : Nat
  height : Nat
  dominantColor : String
deriving Repr, DecidableEq

/-- Entry of `homepageImages[num]` built at lines 678-692. -/
structure HomepageEntry where
  index : Nat
  path : String
  srcsetAvif : String
  srcsetWebp : String
  srcsetJpg : String
  src : String
  placeholder : String
  aspectRatio : ℚ
  width : Nat
  height : Nat
  dominantColor : String
deriving Repr, DecidableEq

/-- Entry pushed into `results` by `processFolder` (lines 795-805). -/
structure LandingEntry where
  src : String
  srcsetAvif : String
  srcsetWebp : String
  srcsetJpg : String
  width : Nat
  height : Nat
  aspectRatio : ℚ
deriving Repr, DecidableEq

/-- The `data` field of a cache entry.  The JS cache stores whatever
object the producing loop built: `processImages` stores a
`processImage` result, `processHomepageImages` stores a homepage
entry; a hypothetical cached landing pipeline would store a landing
entry (used only by the spec-side model below). -/
inductive CachedData where
  | proj : ProcessResult → CachedData
  | home : HomepageEntry → CachedData
  | land : LandingEntry → CachedData
deriving Repr, DecidableEq

/-- `imageCache[key] = { hash, data }` (lines 695-698, 891-894). -/
structure CacheEntry where
  hash : String
  data : CachedData
deriving Repr, DecidableEq

/-- The JS object `imageCache` is modelled as an association list in
insertion order. -/
def CacheMap : Type := List (String × CacheEntry)

instance : DecidableEq CacheMap := by
  unfold CacheMap
  infer_instance

instance : Repr CacheMap := by
  unfold CacheMap
  infer_instance

/-- Property lookup `imageCache[cacheKey]`. -/
def lookupKey : CacheMap → String → Option CacheEntry
  | [], _ => none
  | (k2, v) :: rest, k => if k2 = k then some v else lookupKey rest k

/-- Property assignment `imageCache[cacheKey] = entry`. -/
def upsert : CacheMap → String → CacheEntry → CacheMap
  | [], k, v => [(k, v)]
  | (k2, v2) :: rest, k, v =>
      if k2 = k then (k, v) :: rest else (k2, v2) :: upsert rest k v

/-- The mutable state the image pipeline threads through a build:
the in-memory cache (`imageCache`), the dirty flag
(`imageCacheUpdated`) and the set of output directories that exist on
disk (consulted by `fs.pathExists(outputDir)` and extended by
`fs.ensureDir`). -/
structure CacheState where
  cache : CacheMap
  dirty : Bool
  dirs : List String
deriving Repr, DecidableEq

/-- `CONFIG.imageSizes` (line 254): the ladder used for project and
homepage images. -/
def imageSizes : List Nat := [400, 800, 1200]

/-- `landingSizes` (line 740). -/
def landingSizes : List Nat := [800, 1200, 1800]

/-- `extractDominantColor` (lines 499-513): 1x1 downscale and read the
pixel; on any failure fall back to the fixed neutral colour. -/
def extractDominantColor (f : SourceFile) : String :=
  if f.dominantOk then f.dominantHex else "#e8e8e6"

/-- `needsProcessing` (lines 324-330), verbatim: checks only the entry
and the stored hash; the `outputDir` argument is accepted but never
consulted.  (The function is defined in the script but the loops
inline their own check instead of calling it.) -/
def needsProcessing (cache : CacheMap) (cacheKey : String)
    (fileHash : String) ( outputDir : String) : Bool :=
  match lookupKey cache cacheKey with
  | none => true
  | some cached => if cached.hash ≠ fileHash then true else false

/-- The change-detector contract as the spec words it (section 4.2):
true if no entry exists, or the stored hash differs, or the expected
output directory is missing from the output store.  Written from the
spec sentence, to be compared with `needsProcessing` above. -/
def needsProcessingClaimed (cache : CacheMap) (existingDirs : List String)
    (cacheKey : String) (fileHash : String) (outputDir : String) : Bool :=
  match lookupKey cache cacheKey with
  | none => true
  | some cached =>
      if cached.hash ≠ fileHash then true
      else decide (outputDir ∉ existingDirs)

/-- `validateImage` (lines 335-347): warnings produced for one file;
a file sharp cannot read yields an error-warning, a readable file
narrower than 1200px yields an under-resolution warning. -/
def validateImage (src : Option SourceFile) (name : String) : List String :=
  match src with
  | none => ["Error reading " ++ name]
  | some f =>
      if f.valid then
        if f.width < 1200 then
          ["Warning: " ++ name ++ " is only " ++ toString f.width ++ "px wide"]
        else []
      else ["Error reading " ++ name]

/-- The three sibling encodings written for one ladder width
(lines 543-559): avif, webp, progressive jpeg. -/
def encodingWrites (odir : String) (w : Nat) : List String :=
  [ odir ++ "/" ++ toString w ++ ".avif"
  , odir ++ "/" ++ toString w ++ ".webp"
  , odir ++ "/" ++ toString w ++ ".jpg" ]

/-- Concatenation of the per-width write lists, in ladder order. -/
def concatWrites (odir : String) : List Nat → List String
  | [] => []
  | w :: ws => encodingWrites odir w ++ concatWrites odir ws

/-- `processImage` (lines 520-578).  Returns the results record plus
the list of files written into `outputDir`, or `none` when sharp
cannot read the source (`metadata()` throws before anything is
written).  The resize loop keeps exactly the ladder widths that do
not exceed the source width (`metadata.width >= width`); the
placeholder and the dominant colour are always produced; the original
is copied to a fixed name.  The `filename`/`cacheKey` parameters of
the JS function are unused there and omitted here. -/
def processImage (src : Option SourceFile) (outputDir : String) :
    Option (ProcessResult × List String) :=
  match src with
  | none => none
  | some f =>
      if f.valid then
        let widths := imageSizes.filter (fun w => decide (w ≤ f.width))
        some
          ( { sizes := widths
            , placeholder := "data:image/jpeg;base64," ++ f.placeholderB64
            , aspectRatio := (f.width : ℚ) / (f.height : ℚ)
            , width := f.width
            , height := f.height
            , dominantColor := extractDominantColor f }
          , concatWrites outputDir widths ++ [outputDir ++ "/original.jpg"] )
      else none

/-- One iteration of a per-image loop: the updated pipeline state, the
entry stored into the aggregate (if any), the increments the iteration
applies to the processed/skipped counters, the files it writes, and
the console warnings and errors it emits. -/
structure StepOut (ε : Type) where
  st : CacheState
  entry : Option ε
  procInc : Nat
  skipInc : Nat
  writes : List String
  warnings : List String
  errors : List String
deriving Repr

/-- Aggregate of a whole per-image loop. -/
structure LoopOut (ε : Type) where
  st : CacheState
  entries : List ε
  processed : Nat
  skipped : Nat
  writes : List String
  warnings : List String
  errors : List String
deriving Repr

/-- Sequential per-image loop: the state is threaded strictly in
order, entries/writes/logs accumulate in iteration order and the
counters sum the per-iteration increments. -/
def foldSteps {ι ε : Type} (step : CacheState → ι → StepOut ε) :
    CacheState → List ι → LoopOut ε
  | st, [] => ⟨st, [], 0, 0, [], [], []⟩
  | st, i :: rest =>
      let s := step st i
      let r := foldSteps step s.st rest
      ⟨ r.st
      , s.entry.toList ++ r.entries
      , s.procInc + r.processed
      , s.skipInc + r.skipped
      , s.writes ++ r.writes
      , s.warnings ++ r.warnings
      , s.errors ++ r.errors ⟩

/-- One image of a project, as produced by `loadProjects`
(lines 407-420): filename, 1-based index and display size. -/
structure ProjImage where
  file : String
  index : Nat
  size : String
  source : Option SourceFile
deriving Repr, DecidableEq

/-- One project of the inventory (`loadProjects` result restricted to
the fields the image loop reads). -/
structure Project where
  slug : String
  title : String
  images : List ProjImage
  hasImages : Bool
deriving Repr, DecidableEq

/-- One iteration of the inner loop of `processImages`: a project
image tagged with its project slug. -/
structure ProjItem where
  slug : String
  img : ProjImage
deriving Repr, DecidableEq

/-- `String(img.index).padStart(2, "0")` (line 857). -/
def padIndex (n : Nat) : String :=
  let s := toString n
  if s.length < 2 then "0" ++ s else s

/-- `cacheKey` of a project image (line 858). -/
def projKey (it : ProjItem) : String := it.slug ++ "/" ++ it.img.file

/-- `outputDir` of a project image (line 857). -/
def projOutDir (it : ProjItem) : String :=
  "dist/images/" ++ it.slug ++ "/" ++ padIndex it.img.index

/-- Name under which a project image is reported (line 862). -/
def projName (it : ProjItem) : String := it.slug ++ "/" ++ it.img.file

/-- The value assigned to `imageData[project.slug][img.index]`: the
cached or fresh derived data spread together with the display size.
The nested `imageData` object is modelled as the flat run of these
assignments in execution order. -/
structure ProjOut where
  slug : String
  index : Nat
  data : CachedData
  size : String
deriving Repr, DecidableEq

/-- Process branch of the `processImages` body (lines 883-899): run
the engine; on success store the whole `(hash, data)` entry, set the
dirty flag and record the created output directory; on failure log
and leave every piece of state untouched. -/
def projProcess (st : CacheState) (it : ProjItem) (f : SourceFile)
    (warn : List String) : StepOut ProjOut :=
  match processImage (some f) (projOutDir it) with
  | none =>
      ⟨st, none, 0, 0, [], warn, ["Error processing " ++ it.img.file]⟩
  | some (r, writes) =>
      ⟨ ⟨ upsert st.cache (projKey it) ⟨f.hash, CachedData.proj r⟩
        , true
        , projOutDir it :: st.dirs ⟩
      , some ⟨it.slug, it.img.index, CachedData.proj r, it.img.size⟩
      , 1, 0, writes, warn, [] ⟩

/-- Body of the per-image loop of `processImages` (lines 855-903):
validate (warnings only), hash the file, then the inlined reuse check
`cached && cached.hash === fileHash && await fs.pathExists(outputDir)`;
on a hit reuse the cached data, otherwise derive.  A missing source
file makes `getFileHash` throw, which the catch turns into a logged
error with no state change. -/
def projStep (st : CacheState) (it : ProjItem) : StepOut ProjOut :=
  let warn := validateImage it.img.source (projName it)
  match it.img.source with
  | none =>
      ⟨st, none, 0, 0, [], warn, ["Error processing " ++ it.img.file]⟩
  | some f =>
      match lookupKey st.cache (projKey it) with
      | some cached =>
          if cached.hash = f.hash ∧ projOutDir it ∈ st.dirs then
            ⟨ st
            , some ⟨it.slug, it.img.index, cached.data, it.img.size⟩
            , 0, 1, [], warn, [] ⟩
          else projProcess st it f warn
      | none => projProcess st it f warn

/-- The inlined cache-hit condition of `processImages` (line 871). -/
def projHit (st : CacheState) (it : ProjItem) : Bool :=
  match it.img.source, lookupKey st.cache (projKey it) with
  | some f, some cached =>
      decide (cached.hash = f.hash ∧ projOutDir it ∈ st.dirs)
  | _, _ => false

/-- The entry a cache hit stores into `imageData` (lines 873-876). -/
def projHitEntry (st : CacheState) (it : ProjItem) : ProjOut :=
  match lookupKey st.cache (projKey it) with
  | some cached => ⟨it.slug, it.img.index, cached.data, it.img.size⟩
  | none =>
      ⟨it.slug, it.img.index, CachedData.proj ⟨[], "", 0, 0, 0, ""⟩, it.img.size⟩

/-- A project image whose source file exists and is readable by sharp. -/
def projValidB (it : ProjItem) : Bool :=
  match it.img.source with
  | some f => f.valid
  | none => false

/-- Flattened iteration order of `processImages` (lines 837-855):
projects in order, skipping those without images, then their images in
order. -/
def projectItems : List Project → List ProjItem
  | [] => []
  | p :: rest =>
      (if p.hasImages then p.images.map (fun im => ⟨p.slug, im⟩) else [])
        ++ projectItems rest

/-- `processImages` (lines 828-916): the whole project-image loop.
The duplicate-filename scan (lines 846-853) only appends warnings and
is not part of the pipeline state. -/
def processImages (st : CacheState) (projects : List Project) : LoopOut ProjOut :=
  foldSteps projStep st (projectItems projects)

/-- One homepage slideshow image: the parsed number of the numbered
file, the filename and the source bytes (the numbered-file filter and
numeric sort of lines 599-605 supply this list). -/
structure HomeItem where
  num : Nat
  file : String
  source : Option SourceFile
deriving Repr, DecidableEq

/-- `cacheKey` of a homepage image (line 614). -/
def homeKey (it : HomeItem) : String := "homepage/" ++ it.file

/-- `outputDir` of a homepage image (line 613). -/
def homeOutDir (it : HomeItem) : String :=
  "dist/images/homepage/" ++ toString it.num

/-- URL prefix of a homepage image (lines 647, 680). -/
def homePath (n : Nat) : String := "/images/homepage/" ++ toString n

/-- `Math.max(...)` over a spread list: on the empty list JS yields
`-Infinity`. -/
def listMax? : List Nat → Option Nat
  | [] => none
  | x :: xs =>
      match listMax? xs with
      | none => some x
      | some m => some (max x m)

/-- String interpolation of the `Math.max` result: a number prints as
itself, `-Infinity` prints as "-Infinity" (line 686). -/
def jsMaxStr (l : List Nat) : String :=
  match listMax? l with
  | some m => toString m
  | none => "-Infinity"

/-- One `srcset` element `"<url>/<w>.<ext> <w>w"`. -/
def srcsetPiece (base : String) (ext : String) (w : Nat) : String :=
  base ++ "/" ++ toString w ++ "." ++ ext ++ " " ++ toString w ++ "w"

/-- The joined srcset string for one encoding (lines 682-684). -/
def srcsetJoin (base : String) (ext : String) (ws : List Nat) : String :=
  String.intercalate ", " (ws.map (srcsetPiece base ext))

/-- The entry built for `homepageImages[num]` (lines 678-692), given
the widths the resize loop produced. -/
def mkHomeEntry (it : HomeItem) (f : SourceFile) (widths : List Nat) :
    HomepageEntry :=
  { index := it.num
  , path := homePath it.num
  , srcsetAvif := srcsetJoin (homePath it.num) "avif" widths
  , srcsetWebp := srcsetJoin (homePath it.num) "webp" widths
  , srcsetJpg := srcsetJoin (homePath it.num) "jpg" widths
  , src := homePath it.num ++ "/" ++ jsMaxStr widths ++ ".jpg"
  , placeholder := "data:image/jpeg;base64," ++ f.placeholderB64
  , aspectRatio := (f.width : ℚ) / (f.height : ℚ)
  , width := f.width
  , height := f.height
  , dominantColor := extractDominantColor f }

/-- Process branch of the homepage loop (lines 629-702): read
metadata (throws on a corrupt file, leaving all state untouched),
create the output directory, emit the per-width encodings, build the
entry and store the whole `(hash, data)` cache entry. -/
def homeProcess (st : CacheState) (it : HomeItem) (f : SourceFile) :
    StepOut (Nat × CachedData) :=
  if f.valid then
    let widths := imageSizes.filter (fun w => decide (w ≤ f.width))
    let e := mkHomeEntry it f widths
    ⟨ ⟨ upsert st.cache (homeKey it) ⟨f.hash, CachedData.home e⟩
      , true
      , homeOutDir it :: st.dirs ⟩
    , some (it.num, CachedData.home e)
    , 1, 0, concatWrites (homeOutDir it) widths, [], [] ⟩
  else ⟨st, none, 0, 0, [], [], ["Error processing " ++ it.file]⟩

/-- Body of the per-image loop of `processHomepageImages`
(lines 610-706): hash, inlined reuse check (line 621), reuse or
derive; a thrown error is logged and the loop continues. -/
def homeStep (st : CacheState) (it : HomeItem) : StepOut (Nat × CachedData) :=
  match it.source with
  | none => ⟨st, none, 0, 0, [], [], ["Error processing " ++ it.file]⟩
  | some f =>
      match lookupKey st.cache (homeKey it) with
      | some cached =>
          if cached.hash = f.hash ∧ homeOutDir it ∈ st.dirs then
            ⟨st, some (it.num, cached.data), 0, 1, [], [], []⟩
          else homeProcess st it f
      | none => homeProcess st it f

/-- The inlined cache-hit condition of the homepage loop (line 621). -/
def homeHit (st : CacheState) (it : HomeItem) : Bool :=
  match it.source, lookupKey st.cache (homeKey it) with
  | some f, some cached =>
      decide (cached.hash = f.hash ∧ homeOutDir it ∈ st.dirs)
  | _, _ => false

/-- The entry a homepage cache hit stores (line 623). -/
def homeHitEntry (st : CacheState) (it : HomeItem) : Nat × CachedData :=
  match lookupKey st.cache (homeKey it) with
  | some cached => (it.num, cached.data)
  | none => (it.num, CachedData.proj ⟨[], "", 0, 0, 0, ""⟩)

/-- A homepage item whose source exists and is readable. -/
def homeValidB (it : HomeItem) : Bool :=
  match it.source with
  | some f => f.valid
  | none => false

/-- `processHomepageImages` (lines 584-722): when the homepage folder
is missing the function returns the empty aggregate untouched;
otherwise it runs the loop.  (The trailing homepage.json write and the
sorted-array conversion do not touch the pipeline state.) -/
def processHomepageImages (st : CacheState) (dirExists : Bool)
    (items : List HomeItem) : LoopOut (Nat × CachedData) :=
  match dirExists with
  | true => foldSteps homeStep st items
  | false => ⟨st, [], 0, 0, [], [], []⟩

/-- One landing folder image (the readdir filter of line 749 supplies
the list, in directory order). -/
structure LandingItem where
  file : String
  source : Option SourceFile
deriving Repr, DecidableEq

/-- `baseName` (line 755): `type-<i+1>`. -/
def landingBase (ty : String) (i : Nat) : String := ty ++ "-" ++ toString (i + 1)

/-- Output directory of one landing image (line 756). -/
def landingDir (ty : String) (i : Nat) : String :=
  "dist/images/landing/" ++ ty ++ "/" ++ landingBase ty i

/-- URL prefix of one landing image (lines 773, 793). -/
def landingUrl (ty : String) (i : Nat) : String :=
  "/images/landing/" ++ ty ++ "/" ++ landingBase ty i

/-- The entry `processFolder` pushes for one landing image
(lines 795-805). -/
def mkLandingEntry (ty : String) (i : Nat) (f : SourceFile)
    (widths : List Nat) : LandingEntry :=
  { src := landingUrl ty i ++ "/" ++ jsMaxStr widths ++ ".jpg"
  , srcsetAvif := srcsetJoin (landingUrl ty i) "avif" widths
  , srcsetWebp := srcsetJoin (landingUrl ty i) "webp" widths
  , srcsetJpg := srcsetJoin (landingUrl ty i) "jpg" widths
  , width := f.width
  , height := f.height
  , aspectRatio := (f.width : ℚ) / (f.height : ℚ) }

/-- Body of the `processFolder` loop (lines 752-811) for the image at
position `i`: NO hash is computed and NO cache is consulted or
updated — the fan-out runs unconditionally; a corrupt source is
logged and skipped.  Returns (entry?, written files, error logs). -/
def landingStepOne (ty : String) (i : Nat) (it : LandingItem) :
    Option LandingEntry × List String × List String :=
  match it.source with
  | none => (none, [], ["Error processing " ++ it.file])
  | some f =>
      if f.valid then
        let widths := landingSizes.filter (fun w => decide (w ≤ f.width))
        (some (mkLandingEntry ty i f widths), concatWrites (landingDir ty i) widths, [])
      else (none, [], ["Error processing " ++ it.file])

/-- The indexed loop of `processFolder`. -/
def processFolderGo (ty : String) (i : Nat) :
    List LandingItem → List LandingEntry × List String × List String
  | [] => ([], [], [])
  | it :: rest =>
      let s := landingStepOne ty i it
      let r := processFolderGo ty (i + 1) rest
      (s.1.toList ++ r.1, s.2.1 ++ r.2.1, s.2.2 ++ r.2.2)

/-- `processFolder` (lines 742-814): missing folder yields the empty
result; otherwise the loop over the directory listing.  Note the
signature: unlike the project and homepage loops it does not receive
or return the cache state. -/
def processFolder (ty : String) (dirExists : Bool)
    (files : List LandingItem) : List LandingEntry × List String × List String :=
  if dirExists then processFolderGo ty 0 files else ([], [], [])

/-- The cached landing pipeline the claim asserts, written from the
spec words (sections 4.4 and 8): compute the content hash for each
landing image, and when the stored entry matches and the output
directory exists, read the derived data from the cache and write
nothing; otherwise derive, write, and store the whole entry. -/
def processFolderClaimedGo (st : CacheState) (ty : String) (i : Nat) :
    List LandingItem → List LandingEntry × List String × List String
  | [] => ([], [], [])
  | it :: rest =>
      let key := ty ++ "/" ++ it.file
      let step :
          CacheState × Option LandingEntry × List String × List String :=
        match it.source with
        | none => (st, none, [], ["Error processing " ++ it.file])
        | some f =>
            match lookupKey st.cache key with
            | some cached =>
                if cached.hash = f.hash ∧ landingDir ty i ∈ st.dirs then
                  match cached.data with
                  | CachedData.land e => (st, some e, [], [])
                  | _ => (st, none, [], [])
                else
                  match landingStepOne ty i it with
                  | (some e, w, errs) =>
                      ( ⟨ upsert st.cache key ⟨f.hash, CachedData.land e⟩
                        , true, landingDir ty i :: st.dirs ⟩
                      , some e, w, errs )
                  | (none, w, errs) => (st, none, w, errs)
            | none =>
                match landingStepOne ty i it with
                | (some e, w, errs) =>
                    ( ⟨ upsert st.cache key ⟨f.hash, CachedData.land e⟩
                      , true, landingDir ty i :: st.dirs ⟩
                    , some e, w, errs )
                | (none, w, errs) => (st, none, w, errs)
      let r := processFolderClaimedGo step.1 ty (i + 1) rest
      (step.2.1.toList ++ r.1, step.2.2.1 ++ r.2.1, step.2.2.2 ++ r.2.2)

/-- Entry point of the spec-side cached landing pipeline. -/
def processFolderClaimed (st : CacheState) (ty : String) (dirExists : Bool)
    (files : List LandingItem) : List LandingEntry × List String × List String :=
  if dirExists then processFolderClaimedGo st ty 0 files else ([], [], [])

/-- `saveImageCache` (lines 303-311): no write at all unless the
dirty flag is set; the write going wrong is caught, logged and
swallowed — the function always returns normally.  Returns the
mapping written to disk (if any) and the console lines. -/
def saveImageCache (dirty : Bool) (writeFails : Bool) (cache : CacheMap) :
    Option CacheMap × List String :=
  if dirty then
    if writeFails then (none, ["Error saving image cache"])
    else (some cache, ["Saved image cache"])
  else (none, [])

/-- Failure switches of the build stages that are outside the image
pipeline (templating, asset copying, config loading, ...): each models
whether that awaited call throws.  They are external collaborators of
the spec and enter the model only through whether they throw. -/
structure ExternalStages where
  cleanFails : Bool
  loadVideosFails : Bool
  loadPrintsFails : Bool
  criticalCssFails : Bool
  generatePagesFails : Bool
  copyAssetsFails : Bool
  cacheManifestFails : Bool
  sitemapFails : Bool
  robotsFails : Bool
deriving Repr, DecidableEq

/-- The world a build runs against: the persisted cache file, the
directories existing on disk, and each collection directory together
with the inventory the (excluded) config-loading layer reads out of
it. -/
structure BuildWorld where
  cacheFileCorrupt : Bool
  cacheFile : CacheMap
  existingDirs : List String
  projectsDirExists : Bool
  projectList : List Project
  homepageDirExists : Bool
  homeItems : List HomeItem
  commercialDirExists : Bool
  commercialFiles : List LandingItem
  personalDirExists : Bool
  personalFiles : List LandingItem
deriving Repr, DecidableEq

/-- `loadImageCache` (lines 285-298): a missing or unparsable cache
file is swallowed and treated as the empty mapping. -/
def loadImageCache (w : BuildWorld) : CacheMap :=
  if w.cacheFileCorrupt then [] else w.cacheFile

/-- `loadProjects` (lines 374-440) reduced to what the image pipeline
consumes: a missing projects directory is logged and yields the empty
inventory (no throw); otherwise the inventory built by the excluded
config-loading layer is returned. -/
def loadProjects (w : BuildWorld) : List Project :=
  if w.projectsDirExists then w.projectList else []

/-- Everything a successful build hands onward from the image
pipeline, plus what `saveImageCache` wrote. -/
structure BuildOutput where
  imageData : List ProjOut
  homepageImages : List (Nat × CachedData)
  landingCommercial : List LandingEntry
  landingPersonal : List LandingEntry
  savedCache : Option CacheMap
deriving Repr

/-- `build` (lines 1882-1924): the stages in source order inside the
single try block.  The modelled image-pipeline stages are total
functions and so can never throw; an external stage throwing aborts
the try block.  The catch handler prints and calls `process.exit(1)`;
a run that completes the try block exits 0. -/
def build (w : BuildWorld) (e : ExternalStages) (saveFails : Bool) :
    Except String BuildOutput :=
  let cache0 := loadImageCache w
  if e.cleanFails then Except.error "clean" else
  let projects := loadProjects w
  if e.loadVideosFails then Except.error "videos" else
  if e.loadPrintsFails then Except.error "prints" else
  let st0 : CacheState := ⟨cache0, false, w.existingDirs⟩
  let r := processImages st0 projects
  let h := processHomepageImages r.st w.homepageDirExists w.homeItems
  let lc := processFolder "commercial" w.commercialDirExists w.commercialFiles
  let lp := processFolder "personal" w.personalDirExists w.personalFiles
  if e.criticalCssFails then Except.error "css" else
  if e.generatePagesFails then Except.error "pages" else
  if e.copyAssetsFails then Except.error "assets" else
  if e.cacheManifestFails then Except.error "manifest" else
  if e.sitemapFails then Except.error "sitemap" else
  if e.robotsFails then Except.error "robots" else
  let saved := saveImageCache h.st.dirty saveFails h.st.cache
  Except.ok ⟨r.entries, h.entries, lc.1, lp.1, saved.1⟩

/-- Process exit code of a build: 0 when the try block completes,
1 when the catch handler runs (`process.exit(1)`, line 1922). -/
def buildExitCode (w : BuildWorld) (e : ExternalStages) (saveFails : Bool) :
    Nat :=
  match build w e saveFails with
  | Except.ok _ => 0
  | Except.error _ => 1

/-- Whether any stage of the try block throws. -/
def buildThrows (e : ExternalStages) : Bool :=
  e.cleanFails || e.loadVideosFails || e.loadPrintsFails ||
  e.criticalCssFails || e.generatePagesFails || e.copyAssetsFails ||
  e.cacheManifestFails || e.sitemapFails || e.robotsFails

/-- Number of collections the run processed: projects with images,
plus the homepage set and the two landing category sets when their
directories exist. -/
def collectionsProcessed (w : BuildWorld) : Nat :=
  ((loadProjects w).filter (fun p => p.hasImages)).length
    + (if w.homepageDirExists then 1 else 0)
    + (if w.commercialDirExists then 1 else 0)
    + (if w.personalDirExists then 1 else 0)

/-- The state the next build starts from, given the pipeline state a
run ended with: the persisted cache and the surviving output
directories; the dirty flag starts false in a fresh process
(line 264). -/
def freshState (st : CacheState) : CacheState := ⟨st.cache, false, st.dirs⟩

/-- One orchestrator pass over the project collections followed by
the homepage collection, as `build` sequences them. -/
def orchestratorRun (st : CacheState) (projects : List Project)
    (hdir : Bool) (items : List HomeItem) :
    LoopOut ProjOut × LoopOut (Nat × CachedData) :=
  let r := processImages st projects
  let h := processHomepageImages r.st hdir items
  (r, h)

/-- The second pass: same inventory, against the state the first pass
left behind. -/
def rerun (st : CacheState) (projects : List Project)
    (hdir : Bool) (items : List HomeItem) :
    LoopOut ProjOut × LoopOut (Nat × CachedData) :=
  orchestratorRun (freshState (orchestratorRun st projects hdir items).2.st)
    projects hdir items

/-- Concatenation of per-item console output, in iteration order. -/
def joinAll : List (List String) → List String
  | [] => []
  | x :: xs => x ++ joinAll xs

/-! Concrete sample inputs used by the witnesses and counterexamples. -/

/-- A pipeline state with an empty cache and no output directories. -/
def emptyState : CacheState := ⟨[], false, []⟩

/-- A healthy 2000x1000 source image. -/
def sampleValidFile (h : String) : SourceFile :=
  ⟨h, 2000, 1000, true, "AAAA", true, "#112233"⟩

/-- A file sharp cannot parse as an image. -/
def sampleCorruptFile : SourceFile := ⟨"hbad", 0, 0, false, "", false, ""⟩

/-- A healthy 900x600 source image (narrower than the top ladder rung). -/
def sampleMidFile : SourceFile := ⟨"hmid", 900, 600, true, "MM", true, "#445566"⟩

/-- A healthy 300x200 source image (narrower than every ladder rung). -/
def sampleTinyFile : SourceFile := ⟨"htiny", 300, 200, true, "TT", true, "#778899"⟩

/-- Image number n of the ten-image batch of claim C5; number 5 is the
corrupt one. -/
def c5Item (n : Nat) : ProjItem :=
  ⟨ "proj"
  , ⟨ "img" ++ toString n ++ ".jpg", n, "full"
    , some (if n = 5 then sampleCorruptFile else sampleValidFile ("h" ++ toString n)) ⟩ ⟩

/-- The ten-image batch with one corrupt file in the middle. -/
def c5Batch : List ProjItem := (List.range 10).map (fun n => c5Item (n + 1))

/-- Cached derived data used by the C1 counterexample. -/
def c1Data : CachedData := CachedData.proj ⟨[400], "p", 2, 800, 400, "#ffffff"⟩

/-- A cache holding an intact entry for alpha/a.jpg with hash hash1. -/
def c1Cache : CacheMap := [("alpha/a.jpg", ⟨"hash1", c1Data⟩)]

/-- A healthy landing source image. -/
def c6File : SourceFile := ⟨"lh1", 2000, 1000, true, "QQ", true, "#222222"⟩

/-- The landing folder listing of the C6 counterexample. -/
def c6Item : LandingItem := ⟨"a.jpg", some c6File⟩

/-- The derived landing entry for that image. -/
def c6Entry : LandingEntry :=
  mkLandingEntry "commercial" 0 c6File
    (landingSizes.filter (fun w => decide (w ≤ 2000)))

/-- A state whose cache already holds the intact landing entry and
whose output directory exists: the claimed cached pipeline would skip
this image, the real one re-derives it. -/
def c6State : CacheState :=
  ⟨[("commercial/a.jpg", ⟨"lh1", CachedData.land c6Entry⟩)], false,
    [landingDir "commercial" 0]⟩

/-- Sample project with one healthy image (claim C2 witness). -/
def w2Project : Project :=
  ⟨"alpha", "Alpha", [⟨"a.jpg", 1, "full", some sampleMidFile⟩], true⟩

/-- Sample homepage inventory (claim C2 witness). -/
def w2Items : List HomeItem := [⟨1, "1.jpg", some (sampleValidFile "hh1")⟩]

/-- A world with no collection directories at all. -/
def emptyWorld : BuildWorld :=
  ⟨false, [], [], false, [], false, [], false, [], false, []⟩

/-- External stages that all succeed. -/
def noFailStages : ExternalStages :=
  ⟨false, false, false, false, false, false, false, false, false⟩

/-- Project item with an intact cache entry used by the C4 witness. -/
def c4Item : ProjItem := ⟨"alpha", ⟨"a.jpg", 1, "full", some sampleMidFile⟩⟩

/-- State with an intact cache entry for c4Item but no output
directory on disk. -/
def c4State : CacheState :=
  ⟨[("alpha/a.jpg", ⟨"hmid", c1Data⟩)], false, []⟩

/-- State with an intact cache entry for c4Item and its output
directory present on disk: a cache hit. -/
def c6HitState : CacheState :=
  ⟨[("alpha/a.jpg", ⟨"hmid", c1Data⟩)], false, [projOutDir c4Item]⟩


/-! Helper lemmas about the association-list cache and the generic
per-image loop. -/

theorem lookupKey_upsert_self (m : CacheMap) (k : String) (v : CacheEntry) :
    lookupKey (upsert m k v) k = some v := by
  induction m with
  | nil => simp [upsert, lookupKey]
  | cons hd tl ih =>
      obtain ⟨k2, v2⟩ := hd
      by_cases h : k2 = k
      · simp [upsert, lookupKey, h]
      · simp [upsert, lookupKey, h, ih]

theorem lookupKey_upsert_ne (m : CacheMap) (k k2 : String) (v : CacheEntry)
    (h : k2 ≠ k) : lookupKey (upsert m k v) k2 = lookupKey m k2 := by
  induction m with
  | nil => simp [upsert, lookupKey, Ne.symm h]
  | cons hd tl ih =>
      obtain ⟨k3, v3⟩ := hd
      by_cases h3 : k3 = k
      · subst h3
        simp [upsert, lookupKey, Ne.symm h]
      · simp only [upsert, if_neg h3, lookupKey]
        by_cases h2 : k3 = k2
        · simp [h2]
        · simp [h2, ih]

theorem mapCongrList {α β : Type} (f g : α → β) :
    ∀ (l : List α), (∀ a ∈ l, f a = g a) → l.map f = l.map g := by
  intro l
  induction l with
  | nil => intro _; rfl
  | cons a rest ih =>
      intro h
      simp only [List.map_cons]
      rw [h a (by simp), ih (fun b hb => h b (by simp [hb]))]

theorem foldSteps_frame {ι ε : Type} (step : CacheState → ι → StepOut ε)
    (key : ι → String)
    (H : ∀ st i k, k ≠ key i →
      lookupKey (step st i).st.cache k = lookupKey st.cache k) :
    ∀ (l : List ι) (st : CacheState) (k : String), (∀ i ∈ l, k ≠ key i) →
      lookupKey (foldSteps step st l).st.cache k = lookupKey st.cache k := by
  intro l
  induction l with
  | nil => intro st k _; rfl
  | cons i rest ih =>
      intro st k hk
      have h1 := H st i k (hk i (by simp))
      have h2 := ih (step st i).st k (fun j hj => hk j (by simp [hj]))
      calc lookupKey (foldSteps step st (i :: rest)).st.cache k
          = lookupKey (foldSteps step (step st i).st rest).st.cache k := rfl
        _ = lookupKey (step st i).st.cache k := h2
        _ = lookupKey st.cache k := h1

theorem foldSteps_dirs {ι ε : Type} (step : CacheState → ι → StepOut ε)
    (H : ∀ st i d, d ∈ st.dirs → d ∈ (step st i).st.dirs) :
    ∀ (l : List ι) (st : CacheState) (d : String), d ∈ st.dirs →
      d ∈ (foldSteps step st l).st.dirs := by
  intro l
  induction l with
  | nil => intro st d hd; exact hd
  | cons i rest ih => intro st d hd; exact ih (step st i).st d (H st i d hd)

theorem foldSteps_allHit {ι ε : Type} (step : CacheState → ι → StepOut ε)
    (hitB : CacheState → ι → Bool) (he : CacheState → ι → ε)
    (hw : ι → List String)
    (H : ∀ st i, hitB st i = true →
      step st i = ⟨st, some (he st i), 0, 1, [], hw i, []⟩) :
    ∀ (l : List ι) (st : CacheState), (∀ i ∈ l, hitB st i = true) →
      foldSteps step st l =
        ⟨st, l.map (he st), 0, l.length, [], joinAll (l.map hw), []⟩ := by
  intro l
  induction l with
  | nil => intro st _; rfl
  | cons i rest ih =>
      intro st hall
      have hstep := H st i (hall i (by simp))
      have ihh := ih st (fun j hj => hall j (by simp [hj]))
      simp only [foldSteps, hstep, ihh, List.map_cons, List.length_cons, joinAll]
      simp [Nat.one_add]

theorem foldSteps_settles {ι ε : Type} (step : CacheState → ι → StepOut ε)
    (key : ι → String) (hitB : CacheState → ι → Bool)
    (he : CacheState → ι → ε) (validB : ι → Bool)
    (Hframe : ∀ st i k, k ≠ key i →
      lookupKey (step st i).st.cache k = lookupKey st.cache k)
    (Hdirs : ∀ st i d, d ∈ st.dirs → d ∈ (step st i).st.dirs)
    (Hset : ∀ st i, validB i = true →
      hitB (step st i).st i = true ∧
      (step st i).entry = some (he (step st i).st i))
    (Hlocal : ∀ st st2 i,
      lookupKey st2.cache (key i) = lookupKey st.cache (key i) →
      (∀ d, d ∈ st.dirs → d ∈ st2.dirs) → hitB st i = true →
      hitB st2 i = true ∧ he st2 i = he st i) :
    ∀ (l : List ι) (st : CacheState), (∀ i ∈ l, validB i = true) →
      (l.map key).Nodup →
      (∀ i ∈ l, hitB (foldSteps step st l).st i = true) ∧
      (foldSteps step st l).entries = l.map (he (foldSteps step st l).st) := by
  intro l
  induction l with
  | nil =>
      intro st _ _
      exact ⟨fun i hi => absurd hi (List.not_mem_nil i), rfl⟩
  | cons i rest ih =>
      intro st hval hnd
      rw [List.map_cons, List.nodup_cons] at hnd
      obtain ⟨hki, hndr⟩ := hnd
      have h12 := Hset st i (hval i (by simp))
      have ihr := ih (step st i).st (fun j hj => hval j (by simp [hj])) hndr
      have hne : ∀ j ∈ rest, key i ≠ key j := by
        intro j hj heq
        exact hki (heq ▸ List.mem_map_of_mem key hj)
      have hpres : lookupKey (foldSteps step (step st i).st rest).st.cache (key i)
          = lookupKey (step st i).st.cache (key i) :=
        foldSteps_frame step key Hframe rest (step st i).st (key i) hne
      have hdirs2 : ∀ d, d ∈ (step st i).st.dirs →
          d ∈ (foldSteps step (step st i).st rest).st.dirs :=
        fun d hd => foldSteps_dirs step Hdirs rest (step st i).st d hd
      have hloc := Hlocal (step st i).st (foldSteps step (step st i).st rest).st i
        hpres hdirs2 h12.1
      constructor
      · intro j hj
        rcases List.mem_cons.mp hj with hj | hj
        · subst hj
          exact hloc.1
        · exact ihr.1 j hj
      · have hstr : (foldSteps step st (i :: rest)).st =
            (foldSteps step (step st i).st rest).st := rfl
        show (step st i).entry.toList ++
            (foldSteps step (step st i).st rest).entries = _
        rw [hstr, h12.2, ihr.2, List.map_cons, hloc.2]
        simp

/-! Obligations of the generic loop lemmas for the project-image step. -/

theorem projStep_frame (st : CacheState) (it : ProjItem) (k : String)
    (h : k ≠ projKey it) :
    lookupKey (projStep st it).st.cache k = lookupKey st.cache k := by
  cases hs : it.img.source with
  | none => simp [projStep, hs]
  | some f =>
      cases hc : lookupKey st.cache (projKey it) with
      | none =>
          simp only [projStep, hs, hc, projProcess]
          cases hp : processImage (some f) (projOutDir it) with
          | none => rfl
          | some rw => exact lookupKey_upsert_ne _ _ _ _ h
      | some cached =>
          by_cases hcond : cached.hash = f.hash ∧ projOutDir it ∈ st.dirs
          · simp [projStep, hs, hc, hcond]
          · simp only [projStep, hs, hc, if_neg hcond, projProcess]
            cases hp : processImage (some f) (projOutDir it) with
            | none => rfl
            | some rw => exact lookupKey_upsert_ne _ _ _ _ h

theorem projStep_dirs (st : CacheState) (it : ProjItem) (d : String)
    (hd : d ∈ st.dirs) : d ∈ (projStep st it).st.dirs := by
  cases hs : it.img.source with
  | none => simpa [projStep, hs] using hd
  | some f =>
      cases hc : lookupKey st.cache (projKey it) with
      | none =>
          simp only [projStep, hs, hc, projProcess]
          cases hp : processImage (some f) (projOutDir it) with
          | none => exact hd
          | some rw => exact List.mem_cons_of_mem _ hd
      | some cached =>
          by_cases hcond : cached.hash = f.hash ∧ projOutDir it ∈ st.dirs
          · simpa [projStep, hs, hc, hcond] using hd
          · simp only [projStep, hs, hc, if_neg hcond, projProcess]
            cases hp : processImage (some f) (projOutDir it) with
            | none => exact hd
            | some rw => exact List.mem_cons_of_mem _ hd

theorem projStep_hit (st : CacheState) (it : ProjItem)
    (h : projHit st it = true) :
    projStep st it = ⟨st, some (projHitEntry st it), 0, 1, [],
      validateImage it.img.source (projName it), []⟩ := by
  unfold projHit at h
  cases hs : it.img.source with
  | none => rw [hs] at h; simp at h
  | some f =>
      cases hc : lookupKey st.cache (projKey it) with
      | none => rw [hs, hc] at h; simp at h
      | some cached =>
          rw [hs, hc] at h
          rw [decide_eq_true_eq] at h
          simp [projStep, hs, hc, h, projHitEntry]

theorem projStep_settles (st : CacheState) (it : ProjItem)
    (h : projValidB it = true) :
    projHit (projStep st it).st it = true ∧
    (projStep st it).entry = some (projHitEntry (projStep st it).st it) := by
  unfold projValidB at h
  cases hs : it.img.source with
  | none => rw [hs] at h; exact absurd h (by simp)
  | some f =>
      rw [hs] at h
      have hval : f.valid = true := h
      have hp : processImage (some f) (projOutDir it) =
          some
            ( { sizes := imageSizes.filter (fun w => decide (w ≤ f.width))
              , placeholder := "data:image/jpeg;base64," ++ f.placeholderB64
              , aspectRatio := (f.width : ℚ) / (f.height : ℚ)
              , width := f.width
              , height := f.height
              , dominantColor := extractDominantColor f }
            , concatWrites (projOutDir it)
                (imageSizes.filter (fun w => decide (w ≤ f.width)))
                ++ [projOutDir it ++ "/original.jpg"] ) := by
        simp [processImage, hval]
      cases hc : lookupKey st.cache (projKey it) with
      | none =>
          simp only [projStep, hs, hc, projProcess, hp]
          constructor
          · unfold projHit
            rw [hs]
            simp [lookupKey_upsert_self]
          · unfold projHitEntry
            simp [lookupKey_upsert_self]
      | some cached =>
          by_cases hcond : cached.hash = f.hash ∧ projOutDir it ∈ st.dirs
          · simp only [projStep, hs, hc, if_pos hcond]
            constructor
            · unfold projHit
              rw [hs, hc]
              simp [hcond]
            · unfold projHitEntry
              rw [hc]
          · simp only [projStep, hs, hc, if_neg hcond, projProcess, hp]
            constructor
            · unfold projHit
              rw [hs]
              simp [lookupKey_upsert_self]
            · unfold projHitEntry
              simp [lookupKey_upsert_self]

theorem projHit_local (st st2 : CacheState) (it : ProjItem)
    (hc : lookupKey st2.cache (projKey it) = lookupKey st.cache (projKey it))
    (hd : ∀ d, d ∈ st.dirs → d ∈ st2.dirs) (h : projHit st it = true) :
    projHit st2 it = true ∧ projHitEntry st2 it = projHitEntry st it := by
  unfold projHit at h ⊢
  unfold projHitEntry
  cases hs : it.img.source with
  | none => rw [hs] at h; simp at h
  | some f =>
      rw [hs] at h
      cases hcc : lookupKey st.cache (projKey it) with
      | none => rw [hcc] at h; simp at h
      | some cached =>
          rw [hcc] at h
          rw [decide_eq_true_eq] at h
          rw [hc, hcc]
          simp [h.1, hd _ h.2]

/-! The same obligations for the homepage step. -/

theorem homeProcess_frame (st : CacheState) (it : HomeItem) (f : SourceFile)
    (k : String) (h : k ≠ homeKey it) :
    lookupKey (homeProcess st it f).st.cache k = lookupKey st.cache k := by
  unfold homeProcess
  by_cases hv : f.valid = true
  · simp only [hv, if_pos rfl]
    exact lookupKey_upsert_ne _ _ _ _ h
  · simp [hv]

theorem homeStep_frame (st : CacheState) (it : HomeItem) (k : String)
    (h : k ≠ homeKey it) :
    lookupKey (homeStep st it).st.cache k = lookupKey st.cache k := by
  cases hs : it.source with
  | none => simp [homeStep, hs]
  | some f =>
      cases hc : lookupKey st.cache (homeKey it) with
      | none =>
          simp only [homeStep, hs, hc]
          exact homeProcess_frame st it f k h
      | some cached =>
          by_cases hcond : cached.hash = f.hash ∧ homeOutDir it ∈ st.dirs
          · simp [homeStep, hs, hc, hcond]
          · simp only [homeStep, hs, hc, if_neg hcond]
            exact homeProcess_frame st it f k h

theorem homeProcess_dirs (st : CacheState) (it : HomeItem) (f : SourceFile)
    (d : String) (hd : d ∈ st.dirs) : d ∈ (homeProcess st it f).st.dirs := by
  unfold homeProcess
  by_cases hv : f.valid = true
  · simp only [hv, if_pos rfl]
    exact List.mem_cons_of_mem _ hd
  · simpa [hv] using hd

theorem homeStep_dirs (st : CacheState) (it : HomeItem) (d : String)
    (hd : d ∈ st.dirs) : d ∈ (homeStep st it).st.dirs := by
  cases hs : it.source with
  | none => simpa [homeStep, hs] using hd
  | some f =>
      cases hc : lookupKey st.cache (homeKey it) with
      | none =>
          simp only [homeStep, hs, hc]
          exact homeProcess_dirs st it f d hd
      | some cached =>
          by_cases hcond : cached.hash = f.hash ∧ homeOutDir it ∈ st.dirs
          · simpa [homeStep, hs, hc, hcond] using hd
          · simp only [homeStep, hs, hc, if_neg hcond]
            exact homeProcess_dirs st it f d hd

theorem homeStep_hit (st : CacheState) (it : HomeItem)
    (h : homeHit st it = true) :
    homeStep st it = ⟨st, some (homeHitEntry st it), 0, 1, [], [], []⟩ := by
  unfold homeHit at h
  cases hs : it.source with
  | none => rw [hs] at h; simp at h
  | some f =>
      cases hc : lookupKey st.cache (homeKey it) with
      | none => rw [hs, hc] at h; simp at h
      | some cached =>
          rw [hs, hc] at h
          rw [decide_eq_true_eq] at h
          simp [homeStep, hs, hc, h, homeHitEntry]

theorem homeStep_settles (st : CacheState) (it : HomeItem)
    (h : homeValidB it = true) :
    homeHit (homeStep st it).st it = true ∧
    (homeStep st it).entry = some (homeHitEntry (homeStep st it).st it) := by
  unfold homeValidB at h
  cases hs : it.source with
  | none => rw [hs] at h; exact absurd h (by simp)
  | some f =>
      rw [hs] at h
      have hval : f.valid = true := h
      have hpr : homeProcess st it f =
          ⟨ ⟨ upsert st.cache (homeKey it)
                ⟨f.hash, CachedData.home (mkHomeEntry it f
                  (imageSizes.filter (fun w => decide (w ≤ f.width))))⟩
            , true
            , homeOutDir it :: st.dirs ⟩
          , some (it.num, CachedData.home (mkHomeEntry it f
              (imageSizes.filter (fun w => decide (w ≤ f.width)))))
          , 1, 0
          , concatWrites (homeOutDir it)
              (imageSizes.filter (fun w => decide (w ≤ f.width)))
          , [], [] ⟩ := by
        simp [homeProcess, hval]
      cases hc : lookupKey st.cache (homeKey it) with
      | none =>
          simp only [homeStep, hs, hc, hpr]
          constructor
          · unfold homeHit
            rw [hs]
            simp [lookupKey_upsert_self]
          · unfold homeHitEntry
            simp [lookupKey_upsert_self]
      | some cached =>
          by_cases hcond : cached.hash = f.hash ∧ homeOutDir it ∈ st.dirs
          · simp only [homeStep, hs, hc, if_pos hcond]
            constructor
            · unfold homeHit
              rw [hs, hc]
              simp [hcond]
            · unfold homeHitEntry
              rw [hc]
          · simp only [homeStep, hs, hc, if_neg hcond, hpr]
            constructor
            · unfold homeHit
              rw [hs]
              simp [lookupKey_upsert_self]
            · unfold homeHitEntry
              simp [lookupKey_upsert_self]

theorem homeHit_local (st st2 : CacheState) (it : HomeItem)
    (hc : lookupKey st2.cache (homeKey it) = lookupKey st.cache (homeKey it))
    (hd : ∀ d, d ∈ st.dirs → d ∈ st2.dirs) (h : homeHit st it = true) :
    homeHit st2 it = true ∧ homeHitEntry st2 it = homeHitEntry st it := by
  unfold homeHit at h ⊢
  unfold homeHitEntry
  cases hs : it.source with
  | none => rw [hs] at h; simp at h
  | some f =>
      rw [hs] at h
      cases hcc : lookupKey st.cache (homeKey it) with
      | none => rw [hcc] at h; simp at h
      | some cached =>
          rw [hcc] at h
          rw [decide_eq_true_eq] at h
          rw [hc, hcc]
          simp [h.1, hd _ h.2]

/-- Claim C2: running the orchestrator a second time over the same
source files, with the cache store and the output directories the
first run left behind, processes zero images: every project and
homepage image is a cache hit counted as skipped, and the second run
returns entry-for-entry the same derived data as the first. -/
theorem claim_c2_second_run_fully_cached
    (st0 : CacheState) (projects : List Project) (hdir : Bool)
    (items : List HomeItem)
    (hpv : ∀ it ∈ projectItems projects, projValidB it = true)
    (hhv : ∀ it ∈ items, homeValidB it = true)
    (hnd : ((projectItems projects).map projKey ++ items.map homeKey).Nodup) :
    (rerun st0 projects hdir items).1.processed = 0 ∧
    (rerun st0 projects hdir items).2.processed = 0 ∧
    (rerun st0 projects hdir items).1.skipped = (projectItems projects).length ∧
    (rerun st0 projects hdir items).2.skipped
      = (if hdir then items.length else 0) ∧
    (rerun st0 projects hdir items).1.entries
      = (orchestratorRun st0 projects hdir items).1.entries ∧
    (rerun st0 projects hdir items).2.entries
      = (orchestratorRun st0 projects hdir items).2.entries := by
  rw [List.nodup_append] at hnd
  obtain ⟨hndp, hndh, hdisj⟩ := hnd
  have hsetp := foldSteps_settles projStep projKey projHit projHitEntry projValidB
    projStep_frame projStep_dirs projStep_settles projHit_local
    (projectItems projects) st0 hpv hndp
  cases hdir with
  | false =>
      have hfp : ∀ i ∈ projectItems projects,
          projHit (freshState (foldSteps projStep st0 (projectItems projects)).st) i = true ∧
          projHitEntry (freshState (foldSteps projStep st0 (projectItems projects)).st) i
            = projHitEntry (foldSteps projStep st0 (projectItems projects)).st i := by
        intro i hi
        exact projHit_local _ _ i rfl (fun d hd => hd) (hsetp.1 i hi)
      have hrun2p := foldSteps_allHit projStep projHit projHitEntry
        (fun it => validateImage it.img.source (projName it)) projStep_hit
        (projectItems projects)
        (freshState (foldSteps projStep st0 (projectItems projects)).st)
        (fun i hi => (hfp i hi).1)
      have hent : (projectItems projects).map
            (projHitEntry (freshState (foldSteps projStep st0 (projectItems projects)).st))
          = (foldSteps projStep st0 (projectItems projects)).entries := by
        rw [mapCongrList _ _ _ (fun i hi => (hfp i hi).2)]
        exact hsetp.2.symm
      have hfull : rerun st0 projects false items
          = ( ⟨ freshState (foldSteps projStep st0 (projectItems projects)).st
              , (projectItems projects).map
                  (projHitEntry (freshState (foldSteps projStep st0 (projectItems projects)).st))
              , 0, (projectItems projects).length, []
              , joinAll ((projectItems projects).map
                  (fun it => validateImage it.img.source (projName it)))
              , [] ⟩
            , ⟨ (foldSteps projStep
                  (freshState (foldSteps projStep st0 (projectItems projects)).st)
                  (projectItems projects)).st
              , [], 0, 0, [], [], [] ⟩ ) := by
        show ( foldSteps projStep
                (freshState (foldSteps projStep st0 (projectItems projects)).st)
                (projectItems projects)
             , ( ⟨ (foldSteps projStep
                    (freshState (foldSteps projStep st0 (projectItems projects)).st)
                    (projectItems projects)).st
                 , [], 0, 0, [], [], [] ⟩ : LoopOut (Nat × CachedData) ) ) = _
        rw [hrun2p]
      have horch : orchestratorRun st0 projects false items
          = ( foldSteps projStep st0 (projectItems projects)
            , ⟨ (foldSteps projStep st0 (projectItems projects)).st
              , [], 0, 0, [], [], [] ⟩ ) := rfl
      rw [hfull, horch]
      exact ⟨rfl, rfl, rfl, rfl, hent, rfl⟩
  | true =>
      have hseth := foldSteps_settles homeStep homeKey homeHit homeHitEntry homeValidB
        homeStep_frame homeStep_dirs homeStep_settles homeHit_local
        items (foldSteps projStep st0 (projectItems projects)).st hhv hndh
      have hpp : ∀ i ∈ projectItems projects,
          projHit (foldSteps homeStep
            (foldSteps projStep st0 (projectItems projects)).st items).st i = true ∧
          projHitEntry (foldSteps homeStep
            (foldSteps projStep st0 (projectItems projects)).st items).st i
            = projHitEntry (foldSteps projStep st0 (projectItems projects)).st i := by
        intro i hi
        have hkey : ∀ j ∈ items, projKey i ≠ homeKey j := by
          intro j hj heq
          exact hdisj (List.mem_map_of_mem projKey hi)
            (heq ▸ List.mem_map_of_mem homeKey hj)
        exact projHit_local _ _ i
          (foldSteps_frame homeStep homeKey homeStep_frame items _ (projKey i) hkey)
          (fun d hd => foldSteps_dirs homeStep homeStep_dirs items _ d hd)
          (hsetp.1 i hi)
      have hfp : ∀ i ∈ projectItems projects,
          projHit (freshState (foldSteps homeStep
            (foldSteps projStep st0 (projectItems projects)).st items).st) i = true ∧
          projHitEntry (freshState (foldSteps homeStep
            (foldSteps projStep st0 (projectItems projects)).st items).st) i
            = projHitEntry (foldSteps homeStep
                (foldSteps projStep st0 (projectItems projects)).st items).st i := by
        intro i hi
        exact projHit_local _ _ i rfl (fun d hd => hd) (hpp i hi).1
      have hfh : ∀ j ∈ items,
          homeHit (freshState (foldSteps homeStep
            (foldSteps projStep st0 (projectItems projects)).st items).st) j = true ∧
          homeHitEntry (freshState (foldSteps homeStep
            (foldSteps projStep st0 (projectItems projects)).st items).st) j
            = homeHitEntry (foldSteps homeStep
                (foldSteps projStep st0 (projectItems projects)).st items).st j := by
        intro j hj
        exact homeHit_local _ _ j rfl (fun d hd => hd) (hseth.1 j hj)
      have hrun2p := foldSteps_allHit projStep projHit projHitEntry
        (fun it => validateImage it.img.source (projName it)) projStep_hit
        (projectItems projects)
        (freshState (foldSteps homeStep
          (foldSteps projStep st0 (projectItems projects)).st items).st)
        (fun i hi => (hfp i hi).1)
      have hrun2h := foldSteps_allHit homeStep homeHit homeHitEntry
        (fun _ => ([] : List String)) homeStep_hit
        items
        (freshState (foldSteps homeStep
          (foldSteps projStep st0 (projectItems projects)).st items).st)
        (fun j hj => (hfh j hj).1)
      have hentp : (projectItems projects).map
            (projHitEntry (freshState (foldSteps homeStep
              (foldSteps projStep st0 (projectItems projects)).st items).st))
          = (foldSteps projStep st0 (projectItems projects)).entries := by
        rw [mapCongrList _ _ _ (fun i hi => (hfp i hi).2),
            mapCongrList _ _ _ (fun i hi => (hpp i hi).2)]
        exact hsetp.2.symm
      have henth : items.map
            (homeHitEntry (freshState (foldSteps homeStep
              (foldSteps projStep st0 (projectItems projects)).st items).st))
          = (foldSteps homeStep
              (foldSteps projStep st0 (projectItems projects)).st items).entries := by
        rw [mapCongrList _ _ _ (fun j hj => (hfh j hj).2)]
        exact hseth.2.symm
      have hfull : rerun st0 projects true items
          = ( ⟨ freshState (foldSteps homeStep
                  (foldSteps projStep st0 (projectItems projects)).st items).st
              , (projectItems projects).map
                  (projHitEntry (freshState (foldSteps homeStep
                    (foldSteps projStep st0 (projectItems projects)).st items).st))
              , 0, (projectItems projects).length, []
              , joinAll ((projectItems projects).map
                  (fun it => validateImage it.img.source (projName it)))
              , [] ⟩
            , ⟨ freshState (foldSteps homeStep
                  (foldSteps projStep st0 (projectItems projects)).st items).st
              , items.map (homeHitEntry (freshState (foldSteps homeStep
                  (foldSteps projStep st0 (projectItems projects)).st items).st))
              , 0, items.length, []
              , joinAll (items.map (fun _ => ([] : List String)))
              , [] ⟩ ) := by
        have hst2 : (foldSteps projStep
            (freshState (foldSteps homeStep
              (foldSteps projStep st0 (projectItems projects)).st items).st)
            (projectItems projects)).st
            = freshState (foldSteps homeStep
                (foldSteps projStep st0 (projectItems projects)).st items).st := by
          rw [hrun2p]
        show ( foldSteps projStep
                (freshState (foldSteps homeStep
                  (foldSteps projStep st0 (projectItems projects)).st items).st)
                (projectItems projects)
             , foldSteps homeStep
                 (foldSteps projStep
                   (freshState (foldSteps homeStep
                     (foldSteps projStep st0 (projectItems projects)).st items).st)
                   (projectItems projects)).st
                 items ) = _
        rw [hst2, hrun2h, hrun2p]
      have horch : orchestratorRun st0 projects true items
          = ( foldSteps projStep st0 (projectItems projects)
            , foldSteps homeStep
                (foldSteps projStep st0 (projectItems projects)).st items ) := rfl
      rw [hfull, horch]
      exact ⟨rfl, rfl, rfl, rfl, hentp, henth⟩

/-- Witness for claim C2: a concrete inventory of one project image
and one homepage image, starting from the empty cache. -/
theorem claim_c2_witness :
    (∀ it ∈ projectItems [w2Project], projValidB it = true) ∧
    (∀ it ∈ w2Items, homeValidB it = true) ∧
    ((projectItems [w2Project]).map projKey ++ w2Items.map homeKey).Nodup ∧
    (rerun emptyState [w2Project] true w2Items).1.processed = 0 ∧
    (rerun emptyState [w2Project] true w2Items).2.processed = 0 ∧
    (rerun emptyState [w2Project] true w2Items).1.entries
      = (orchestratorRun emptyState [w2Project] true w2Items).1.entries := by
  have h1 : ∀ it ∈ projectItems [w2Project], projValidB it = true := by decide
  have h2 : ∀ it ∈ w2Items, homeValidB it = true := by decide
  have h3 : ((projectItems [w2Project]).map projKey
      ++ w2Items.map homeKey).Nodup := by decide
  obtain ⟨c1, c2, _, _, c5, _⟩ :=
    claim_c2_second_run_fully_cached emptyState [w2Project] true w2Items h1 h2 h3
  exact ⟨h1, h2, h3, c1, c2, c5⟩

/-- Counterexample to claim C1: an intact cache entry (stored hash
equals the current hash) whose output directory does not exist — no
directory exists at all — still makes `needsProcessing` answer false,
while the contract worded in the spec demands true. -/
theorem claim_c1_counterexample :
    needsProcessing c1Cache "alpha/a.jpg" "hash1" "dist/images/alpha/01" = false ∧
    needsProcessingClaimed c1Cache [] "alpha/a.jpg" "hash1" "dist/images/alpha/01"
      = true := by
  decide

/-- Claim C1 as amended: `needsProcessing` returns true exactly when
no entry exists for the key or the stored hash differs from the
current hash; its result is independent of the output-directory
argument, so the missing-output-directory condition of the spec is
not part of this function (the orchestrator loops inline that third
check at their call sites instead). -/
theorem claim_c1_needs_processing_hash_only :
    ∀ (cache : CacheMap) (k h d d2 : String),
      needsProcessing cache k h d = needsProcessing cache k h d2 ∧
      (needsProcessing cache k h d = true ↔
        lookupKey cache k = none ∨
        ∃ e, lookupKey cache k = some e ∧ e.hash ≠ h) := by
  intro cache k h d d2
  constructor
  · rfl
  · unfold needsProcessing
    cases hc : lookupKey cache k with
    | none => simp
    | some e =>
        by_cases he : e.hash = h
        · simp [he]
        · simp [he]

/-- Claim C4: an intact cache entry whose output directory is missing
is reprocessed, not reused — in both the project loop and the
homepage loop the inlined check requires `fs.pathExists(outputDir)`,
so the derivation engine runs and the whole entry is rewritten. -/
theorem claim_c4_missing_output_dir_reprocesses :
    (∀ (st : CacheState) (it : ProjItem) (f : SourceFile) (cached : CacheEntry),
      it.img.source = some f → f.valid = true →
      lookupKey st.cache (projKey it) = some cached → cached.hash = f.hash →
      projOutDir it ∉ st.dirs →
      (projStep st it).procInc = 1 ∧ (projStep st it).skipInc = 0 ∧
      ∃ r w, processImage (some f) (projOutDir it) = some (r, w) ∧
        (projStep st it).st.cache
          = upsert st.cache (projKey it) ⟨f.hash, CachedData.proj r⟩ ∧
        (projStep st it).entry
          = some ⟨it.slug, it.img.index, CachedData.proj r, it.img.size⟩) ∧
    (∀ (st : CacheState) (it : HomeItem) (f : SourceFile) (cached : CacheEntry),
      it.source = some f → f.valid = true →
      lookupKey st.cache (homeKey it) = some cached → cached.hash = f.hash →
      homeOutDir it ∉ st.dirs →
      (homeStep st it).procInc = 1 ∧ (homeStep st it).skipInc = 0 ∧
      (homeStep st it).st.cache
        = upsert st.cache (homeKey it)
            ⟨f.hash, CachedData.home (mkHomeEntry it f
              (imageSizes.filter (fun w => decide (w ≤ f.width))))⟩) := by
  constructor
  · intro st it f cached hs hv hc hh hdir
    have hcond : ¬ (cached.hash = f.hash ∧ projOutDir it ∈ st.dirs) := by
      intro hcon
      exact hdir hcon.2
    have hp : processImage (some f) (projOutDir it) =
        some
          ( { sizes := imageSizes.filter (fun w => decide (w ≤ f.width))
            , placeholder := "data:image/jpeg;base64," ++ f.placeholderB64
            , aspectRatio := (f.width : ℚ) / (f.height : ℚ)
            , width := f.width
            , height := f.height
            , dominantColor := extractDominantColor f }
          , concatWrites (projOutDir it)
              (imageSizes.filter (fun w => decide (w ≤ f.width)))
              ++ [projOutDir it ++ "/original.jpg"] ) := by
      simp [processImage, hv]
    refine ⟨?_, ?_, ?_⟩ <;>
      simp [projStep, hs, hc, if_neg hcond, projProcess, hp]
  · intro st it f cached hs hv hc hh hdir
    have hcond : ¬ (cached.hash = f.hash ∧ homeOutDir it ∈ st.dirs) := by
      intro hcon
      exact hdir hcon.2
    refine ⟨?_, ?_, ?_⟩ <;>
      simp [homeStep, hs, hc, if_neg hcond, homeProcess, hv]

/-- Witness for claim C4: a concrete state whose cache entry for the
one project image is intact but whose output directory is absent; the
step processes the image (counts it as processed, not skipped). -/
theorem claim_c4_witness :
    c4Item.img.source = some sampleMidFile ∧
    sampleMidFile.valid = true ∧
    lookupKey c4State.cache (projKey c4Item) = some ⟨"hmid", c1Data⟩ ∧
    ("hmid" : String) = sampleMidFile.hash ∧
    projOutDir c4Item ∉ c4State.dirs ∧
    (projStep c4State c4Item).procInc = 1 ∧
    (projStep c4State c4Item).skipInc = 0 := by
  have h1 : c4Item.img.source = some sampleMidFile := by decide
  have h2 : sampleMidFile.valid = true := by decide
  have h3 : lookupKey c4State.cache (projKey c4Item) = some ⟨"hmid", c1Data⟩ := by
    decide
  have h4 : (⟨"hmid", c1Data⟩ : CacheEntry).hash = sampleMidFile.hash := by decide
  have h5 : projOutDir c4Item ∉ c4State.dirs := by decide
  obtain ⟨p1, p2, _⟩ :=
    (claim_c4_missing_output_dir_reprocesses).1 c4State c4Item sampleMidFile
      ⟨"hmid", c1Data⟩ h1 h2 h3 h4 h5
  exact ⟨h1, h2, h3, h4, h5, p1, p2⟩

theorem encodingWrites_mem (odir : String) :
    ∀ (ws : List Nat) (w : Nat), w ∈ ws →
      (odir ++ "/" ++ toString w ++ ".avif") ∈ concatWrites odir ws ∧
      (odir ++ "/" ++ toString w ++ ".webp") ∈ concatWrites odir ws ∧
      (odir ++ "/" ++ toString w ++ ".jpg") ∈ concatWrites odir ws := by
  intro ws
  induction ws with
  | nil => intro w hw; exact absurd hw (List.not_mem_nil w)
  | cons x rest ih =>
      intro w hw
      rcases List.mem_cons.mp hw with h | h
      · subst h
        refine ⟨?_, ?_, ?_⟩ <;> simp [concatWrites, encodingWrites]
      · obtain ⟨a, b, c⟩ := ih w h
        exact ⟨List.mem_append_right _ a, List.mem_append_right _ b,
          List.mem_append_right _ c⟩

/-- Claim C3: for every readable source of width W, the produced
`results.sizes` keys are exactly the ladder widths not exceeding W —
no upscaling — and every produced width gets its avif, webp and jpeg
siblings written. -/
theorem claim_c3_no_upscaling :
    ∀ (f : SourceFile) (odir : String), f.valid = true →
      ∃ r w, processImage (some f) odir = some (r, w) ∧
        r.sizes = imageSizes.filter (fun s => decide (s ≤ f.width)) ∧
        (∀ s, s ∈ r.sizes ↔ (s ∈ imageSizes ∧ s ≤ f.width)) ∧
        (∀ s ∈ r.sizes, ¬ f.width < s) ∧
        (∀ s ∈ r.sizes,
          (odir ++ "/" ++ toString s ++ ".avif") ∈ w ∧
          (odir ++ "/" ++ toString s ++ ".webp") ∈ w ∧
          (odir ++ "/" ++ toString s ++ ".jpg") ∈ w) := by
  intro f odir hv
  have hp : processImage (some f) odir =
      some
        ( { sizes := imageSizes.filter (fun s => decide (s ≤ f.width))
          , placeholder := "data:image/jpeg;base64," ++ f.placeholderB64
          , aspectRatio := (f.width : ℚ) / (f.height : ℚ)
          , width := f.width
          , height := f.height
          , dominantColor := extractDominantColor f }
        , concatWrites odir (imageSizes.filter (fun s => decide (s ≤ f.width)))
            ++ [odir ++ "/original.jpg"] ) := by
    simp [processImage, hv]
  refine ⟨_, _, hp, rfl, ?_, ?_, ?_⟩
  · intro s
    simp [List.mem_filter]
  · intro s hs
    have := (List.mem_filter.mp hs).2
    rw [decide_eq_true_eq] at this
    omega
  · intro s hs
    obtain ⟨a, b, c⟩ := encodingWrites_mem odir
      (imageSizes.filter (fun s => decide (s ≤ f.width))) s hs
    exact ⟨List.mem_append_left _ a, List.mem_append_left _ b,
      List.mem_append_left _ c⟩

/-- Witness for claim C3: a 900px-wide source against the ladder
[400, 800, 1200] produces exactly the widths 400 and 800. -/
theorem claim_c3_witness :
    sampleMidFile.valid = true ∧
    (Option.map (fun p => p.1.sizes)
      (processImage (some sampleMidFile) "out")) = some [400, 800] ∧
    (∃ r w, processImage (some sampleMidFile) "out" = some (r, w) ∧
      r.sizes = imageSizes.filter (fun s => decide (s ≤ sampleMidFile.width)) ∧
      (∀ s, s ∈ r.sizes ↔ (s ∈ imageSizes ∧ s ≤ sampleMidFile.width)) ∧
      (∀ s ∈ r.sizes, ¬ sampleMidFile.width < s) ∧
      (∀ s ∈ r.sizes,
        ("out" ++ "/" ++ toString s ++ ".avif") ∈ w ∧
        ("out" ++ "/" ++ toString s ++ ".webp") ∈ w ∧
        ("out" ++ "/" ++ toString s ++ ".jpg") ∈ w)) := by
  refine ⟨by decide, by decide, ?_⟩
  exact claim_c3_no_upscaling sampleMidFile "out" (by decide)

/-- Counterexample to claim C5: the failure branch of the per-image
loop is a pure no-op on the run state — the only counters the code
maintains are the processed and skipped counts, and neither moves when
an image fails.  On the ten-image batch with one corrupt file the run
finishes with nine entries, processed = 9, skipped = 0, and the
failure exists only as a logged console line: no failure counter is
incremented, where the claim asserts one is. -/
theorem claim_c5_counterexample :
    (projStep emptyState (c5Item 5)).st = emptyState ∧
    (projStep emptyState (c5Item 5)).procInc = 0 ∧
    (projStep emptyState (c5Item 5)).skipInc = 0 ∧
    (projStep emptyState (c5Item 5)).errors = ["Error processing img5.jpg"] ∧
    (foldSteps projStep emptyState c5Batch).entries.length = 9 ∧
    (foldSteps projStep emptyState c5Batch).processed = 9 ∧
    (foldSteps projStep emptyState c5Batch).skipped = 0 ∧
    (foldSteps projStep emptyState c5Batch).errors
      = ["Error processing img5.jpg"] := by
  decide

theorem projStep_shape (st : CacheState) (it : ProjItem) :
    (projStep st it).entry.toList.length + (projStep st it).errors.length = 1 ∧
    (projStep st it).procInc + (projStep st it).skipInc
      = (projStep st it).entry.toList.length := by
  cases hs : it.img.source with
  | none => simp [projStep, hs]
  | some f =>
      cases hc : lookupKey st.cache (projKey it) with
      | none =>
          simp only [projStep, hs, hc, projProcess]
          cases hp : processImage (some f) (projOutDir it) with
          | none => simp
          | some pr => simp
      | some cached =>
          by_cases hcond : cached.hash = f.hash ∧ projOutDir it ∈ st.dirs
          · simp [projStep, hs, hc, hcond]
          · simp only [projStep, hs, hc, if_neg hcond, projProcess]
            cases hp : processImage (some f) (projOutDir it) with
            | none => simp
            | some pr => simp

theorem homeStep_shape (st : CacheState) (it : HomeItem) :
    (homeStep st it).entry.toList.length + (homeStep st it).errors.length = 1 ∧
    (homeStep st it).procInc + (homeStep st it).skipInc
      = (homeStep st it).entry.toList.length := by
  cases hs : it.source with
  | none => simp [homeStep, hs]
  | some f =>
      by_cases hfv : f.valid = true
      · cases hc : lookupKey st.cache (homeKey it) with
        | none => simp [homeStep, hs, hc, homeProcess, hfv]
        | some cached =>
            by_cases hcond : cached.hash = f.hash ∧ homeOutDir it ∈ st.dirs
            · simp [homeStep, hs, hc, hcond]
            · simp [homeStep, hs, hc, if_neg hcond, homeProcess, hfv]
      · have hfv2 : f.valid = false := by
          cases hb : f.valid
          · rfl
          · exact absurd hb hfv
        cases hc : lookupKey st.cache (homeKey it) with
        | none => simp [homeStep, hs, hc, homeProcess, hfv2]
        | some cached =>
            by_cases hcond : cached.hash = f.hash ∧ homeOutDir it ∈ st.dirs
            · simp [homeStep, hs, hc, hcond]
            · simp [homeStep, hs, hc, if_neg hcond, homeProcess, hfv2]

theorem foldSteps_shape {ι ε : Type} (step : CacheState → ι → StepOut ε)
    (H : ∀ st i,
      (step st i).entry.toList.length + (step st i).errors.length = 1 ∧
      (step st i).procInc + (step st i).skipInc
        = (step st i).entry.toList.length) :
    ∀ (l : List ι) (st : CacheState),
      (foldSteps step st l).entries.length
        + (foldSteps step st l).errors.length = l.length ∧
      (foldSteps step st l).processed + (foldSteps step st l).skipped
        = (foldSteps step st l).entries.length := by
  intro l
  induction l with
  | nil => intro st; simp [foldSteps]
  | cons i rest ih =>
      intro st
      obtain ⟨h1a, h1b⟩ := H st i
      obtain ⟨h2a, h2b⟩ := ih (step st i).st
      simp only [foldSteps, List.length_append, List.length_cons]
      constructor
      · omega
      · omega

/-- Claim C5 as amended: a per-image exception is logged and the loop
continues — each iteration ends in exactly one of an aggregated entry
or a logged error, so a batch of ten with one corrupt file completes
with nine entries and one logged error and the loop returns normally;
but no failure counter exists: the run statistics count only
processed and skipped images, and both remain untouched by a failing
iteration. -/
theorem claim_c5_failures_logged_not_counted :
    (∀ (st : CacheState) (l : List ProjItem),
      (foldSteps projStep st l).entries.length
        + (foldSteps projStep st l).errors.length = l.length ∧
      (foldSteps projStep st l).processed + (foldSteps projStep st l).skipped
        = (foldSteps projStep st l).entries.length) ∧
    (∀ (st : CacheState) (l : List HomeItem),
      (foldSteps homeStep st l).entries.length
        + (foldSteps homeStep st l).errors.length = l.length ∧
      (foldSteps homeStep st l).processed + (foldSteps homeStep st l).skipped
        = (foldSteps homeStep st l).entries.length) := by
  constructor
  · intro st l
    exact foldSteps_shape projStep projStep_shape l st
  · intro st l
    exact foldSteps_shape homeStep homeStep_shape l st

/-- Claim C10: when derivation for an image throws, the in-memory
cache is left exactly as it was (the failure branch touches neither
the mapping nor the dirty flag); and whenever the cache does change,
it changes by storing the whole hash-and-data pair for the key of
that image, produced by a successful run of the derivation engine. -/
theorem claim_c10_whole_entry_or_untouched :
    (∀ (st : CacheState) (it : ProjItem),
      (projValidB it = false →
        (projStep st it).st.cache = st.cache ∧
        (projStep st it).st.dirty = st.dirty) ∧
      ((projStep st it).st.cache = st.cache ∨
        ∃ f r w, it.img.source = some f ∧
          processImage (some f) (projOutDir it) = some (r, w) ∧
          (projStep st it).st.cache
            = upsert st.cache (projKey it) ⟨f.hash, CachedData.proj r⟩)) ∧
    (∀ (st : CacheState) (it : HomeItem),
      (homeValidB it = false →
        (homeStep st it).st.cache = st.cache ∧
        (homeStep st it).st.dirty = st.dirty) ∧
      ((homeStep st it).st.cache = st.cache ∨
        ∃ f, it.source = some f ∧ f.valid = true ∧
          (homeStep st it).st.cache
            = upsert st.cache (homeKey it)
                ⟨f.hash, CachedData.home (mkHomeEntry it f
                  (imageSizes.filter (fun w => decide (w ≤ f.width))))⟩)) := by
  constructor
  · intro st it
    constructor
    · intro hinv
      unfold projValidB at hinv
      cases hs : it.img.source with
      | none => simp [projStep, hs]
      | some f =>
          rw [hs] at hinv
          have hfv : f.valid = false := hinv
          have hp : processImage (some f) (projOutDir it) = none := by
            simp [processImage, hfv]
          cases hc : lookupKey st.cache (projKey it) with
          | none => simp [projStep, hs, hc, projProcess, hp]
          | some cached =>
              by_cases hcond : cached.hash = f.hash ∧ projOutDir it ∈ st.dirs
              · simp [projStep, hs, hc, hcond]
              · simp [projStep, hs, hc, if_neg hcond, projProcess, hp]
    · cases hs : it.img.source with
      | none =>
          left
          simp [projStep, hs]
      | some f =>
          cases hp : processImage (some f) (projOutDir it) with
          | none =>
              left
              cases hc : lookupKey st.cache (projKey it) with
              | none => simp [projStep, hs, hc, projProcess, hp]
              | some cached =>
                  by_cases hcond : cached.hash = f.hash ∧ projOutDir it ∈ st.dirs
                  · simp [projStep, hs, hc, hcond]
                  · simp [projStep, hs, hc, if_neg hcond, projProcess, hp]
          | some pr =>
              obtain ⟨r, wl⟩ := pr
              cases hc : lookupKey st.cache (projKey it) with
              | none =>
                  right
                  exact ⟨f, r, wl, rfl, hp,
                    by simp [projStep, hs, hc, projProcess, hp]⟩
              | some cached =>
                  by_cases hcond : cached.hash = f.hash ∧ projOutDir it ∈ st.dirs
                  · left
                    simp [projStep, hs, hc, hcond]
                  · right
                    exact ⟨f, r, wl, rfl, hp,
                      by simp [projStep, hs, hc, if_neg hcond, projProcess, hp]⟩
  · intro st it
    constructor
    · intro hinv
      unfold homeValidB at hinv
      cases hs : it.source with
      | none => simp [homeStep, hs]
      | some f =>
          rw [hs] at hinv
          have hfv : f.valid = false := hinv
          cases hc : lookupKey st.cache (homeKey it) with
          | none => simp [homeStep, hs, hc, homeProcess, hfv]
          | some cached =>
              by_cases hcond : cached.hash = f.hash ∧ homeOutDir it ∈ st.dirs
              · simp [homeStep, hs, hc, hcond]
              · simp [homeStep, hs, hc, if_neg hcond, homeProcess, hfv]
    · cases hs : it.source with
      | none =>
          left
          simp [homeStep, hs]
      | some f =>
          by_cases hfv : f.valid = true
          · cases hc : lookupKey st.cache (homeKey it) with
            | none =>
                right
                exact ⟨f, rfl, hfv,
                  by simp [homeStep, hs, hc, homeProcess, hfv]⟩
            | some cached =>
                by_cases hcond : cached.hash = f.hash ∧ homeOutDir it ∈ st.dirs
                · left
                  simp [homeStep, hs, hc, hcond]
                · right
                  exact ⟨f, rfl, hfv,
                    by simp [homeStep, hs, hc, if_neg hcond, homeProcess, hfv]⟩
          · left
            have hfv2 : f.valid = false := by
              cases hb : f.valid
              · rfl
              · exact absurd hb hfv
            cases hc : lookupKey st.cache (homeKey it) with
            | none => simp [homeStep, hs, hc, homeProcess, hfv2]
            | some cached =>
                by_cases hcond : cached.hash = f.hash ∧ homeOutDir it ∈ st.dirs
                · simp [homeStep, hs, hc, hcond]
                · simp [homeStep, hs, hc, if_neg hcond, homeProcess, hfv2]

/-- Witness for claim C10: the corrupt image of the sample batch
leaves the cache and the dirty flag of a concrete state untouched. -/
theorem claim_c10_witness :
    projValidB (c5Item 5) = false ∧
    (projStep c4State (c5Item 5)).st.cache = c4State.cache ∧
    (projStep c4State (c5Item 5)).st.dirty = c4State.dirty := by
  have h : projValidB (c5Item 5) = false := by decide
  obtain ⟨hu, _⟩ := claim_c10_whole_entry_or_untouched.1 c4State (c5Item 5)
  obtain ⟨a, b⟩ := hu h
  exact ⟨h, a, b⟩

/-- Counterexample to claim C6: the landing-page pipeline does not go
through the hash-keyed cache.  With an intact cache entry for a
landing image (matching hash, existing output directory) the real
`processFolder` still performs the full encode fan-out — it writes
nine files — while the cached pipeline the claim describes writes
nothing and returns the same entry straight from the cache. -/
theorem claim_c6_counterexample :
    (processFolder "commercial" true [c6Item]).2.1.length = 9 ∧
    (processFolderClaimed c6State "commercial" true [c6Item]).2.1 = [] ∧
    (processFolderClaimed c6State "commercial" true [c6Item]).1
      = (processFolder "commercial" true [c6Item]).1 := by
  refine ⟨rfl, rfl, rfl⟩

/-- Claim C6 as amended: the project and homepage collections go
through the hash-keyed cache — on a hit their loops reuse the cached
data, touch no state and write nothing — but the landing-page
category sets do not: `processFolder` re-derives every readable image
on every run, unconditionally performing the full write fan-out. -/
theorem claim_c6_cache_only_projects_and_homepage :
    (∀ (st : CacheState) (it : ProjItem), projHit st it = true →
      (projStep st it).st = st ∧ (projStep st it).procInc = 0 ∧
      (projStep st it).skipInc = 1 ∧
      (projStep st it).entry = some (projHitEntry st it) ∧
      (projStep st it).writes = []) ∧
    (∀ (st : CacheState) (it : HomeItem), homeHit st it = true →
      (homeStep st it).st = st ∧ (homeStep st it).procInc = 0 ∧
      (homeStep st it).skipInc = 1 ∧
      (homeStep st it).entry = some (homeHitEntry st it) ∧
      (homeStep st it).writes = []) ∧
    (∀ (ty : String) (i : Nat) (it : LandingItem) (f : SourceFile),
      it.source = some f → f.valid = true →
      (landingStepOne ty i it).1
        = some (mkLandingEntry ty i f
            (landingSizes.filter (fun w => decide (w ≤ f.width)))) ∧
      (landingStepOne ty i it).2.1
        = concatWrites (landingDir ty i)
            (landingSizes.filter (fun w => decide (w ≤ f.width)))) := by
  refine ⟨?_, ?_, ?_⟩
  · intro st it h
    rw [projStep_hit st it h]
    exact ⟨rfl, rfl, rfl, rfl, rfl⟩
  · intro st it h
    rw [homeStep_hit st it h]
    exact ⟨rfl, rfl, rfl, rfl, rfl⟩
  · intro ty i it f hs hv
    constructor <;> simp [landingStepOne, hs, hv]

/-- Witness for claim C6 as amended: a concrete cache hit in the
project loop writes nothing, while the landing pipeline on a concrete
healthy image performs the full fan-out. -/
theorem claim_c6_witness :
    projHit c6HitState c4Item = true ∧
    (projStep c6HitState c4Item).st = c6HitState ∧
    (projStep c6HitState c4Item).writes = [] ∧
    c6Item.source = some c6File ∧
    c6File.valid = true ∧
    (landingStepOne "commercial" 0 c6Item).2.1
      = concatWrites (landingDir "commercial" 0)
          (landingSizes.filter (fun w => decide (w ≤ c6File.width))) := by
  have h1 : projHit c6HitState c4Item = true := by decide
  have h2 : c6Item.source = some c6File := by decide
  have h3 : c6File.valid = true := by decide
  obtain ⟨a, _, _, _, e⟩ :=
    claim_c6_cache_only_projects_and_homepage.1 c6HitState c4Item h1
  obtain ⟨_, w⟩ :=
    claim_c6_cache_only_projects_and_homepage.2.2 "commercial" 0 c6Item c6File h2 h3
  exact ⟨h1, a, e, h2, h3, w⟩

theorem buildExitCode_eq :
    ∀ (w : BuildWorld) (e : ExternalStages) (s : Bool),
      buildExitCode w e s = if buildThrows e then 1 else 0 := by
  intro w e s
  obtain ⟨c1, c2, c3, c4, c5, c6, c7, c8, c9⟩ := e
  cases c1 <;> cases c2 <;> cases c3 <;> cases c4 <;> cases c5 <;>
    cases c6 <;> cases c7 <;> cases c8 <;> cases c9 <;> rfl

/-- Claim C7: the store persists only when dirty — `saveImageCache`
writes the full mapping exactly when the dirty flag is set and the
write succeeds, is a complete no-op when the flag is clear, and a
failing write is logged and swallowed; the build exit code is the
same whether or not the cache write fails. -/
theorem claim_c7_persist_only_if_dirty :
    ∀ (d wf : Bool) (c : CacheMap) (w : BuildWorld) (e : ExternalStages),
      ((saveImageCache d wf c).1 = some c ↔ (d = true ∧ wf = false)) ∧
      (d = false → saveImageCache d wf c = (none, [])) ∧
      (d = true → wf = true →
        (saveImageCache d wf c).1 = none ∧
        (saveImageCache d wf c).2 = ["Error saving image cache"]) ∧
      buildExitCode w e true = buildExitCode w e false := by
  intro d wf c w e
  refine ⟨?_, ?_, ?_, ?_⟩
  · cases d <;> cases wf <;> simp [saveImageCache]
  · intro hd
    subst hd
    simp [saveImageCache]
  · intro hd hw
    subst hd
    subst hw
    simp [saveImageCache]
  · rw [buildExitCode_eq, buildExitCode_eq]

/-- Witness for claim C7 at concrete flags: dirty with a failing
write logs and writes nothing; clean store writes nothing; dirty with
a healthy write persists the mapping; the exit code ignores the save
failure. -/
theorem claim_c7_witness :
    (saveImageCache true true []).1 = none ∧
    (saveImageCache true true []).2 = ["Error saving image cache"] ∧
    saveImageCache false false [] = (none, []) ∧
    (saveImageCache true false c1Cache).1 = some c1Cache ∧
    buildExitCode emptyWorld noFailStages true
      = buildExitCode emptyWorld noFailStages false := by
  obtain ⟨_, _, i3, _⟩ :=
    claim_c7_persist_only_if_dirty true true [] emptyWorld noFailStages
  obtain ⟨j1, _, _, j4⟩ :=
    claim_c7_persist_only_if_dirty true false c1Cache emptyWorld noFailStages
  obtain ⟨_, k2, _, _⟩ :=
    claim_c7_persist_only_if_dirty false false [] emptyWorld noFailStages
  obtain ⟨a, b⟩ := i3 rfl rfl
  exact ⟨a, b, k2 rfl, j1.mpr ⟨rfl, rfl⟩, j4⟩

/-- Counterexample to claim C8: a build whose projects directory,
homepage folder and both landing folders are all missing processes
zero collections, yet completes the try block and exits 0 — there is
no zero-collections check anywhere in `build`. -/
theorem claim_c8_counterexample :
    collectionsProcessed emptyWorld = 0 ∧
    buildExitCode emptyWorld noFailStages false = 0 := by
  constructor
  · rfl
  · rw [buildExitCode_eq]
    rfl

/-- Claim C8 as amended: `build` exits non-zero exactly when one of
the awaited non-image stages throws; the number of successfully
processed collections never influences the exit code, so a build with
zero collections still exits 0 whenever those stages succeed. -/
theorem claim_c8_exit_code_ignores_collections :
    ∀ (w : BuildWorld) (e : ExternalStages) (s : Bool),
      buildExitCode w e s = 0 ↔ buildThrows e = false := by
  intro w e s
  rw [buildExitCode_eq]
  cases hb : buildThrows e <;> simp [hb]

theorem listMax?_cons_some (x : Nat) (xs : List Nat) :
    ∃ m, listMax? (x :: xs) = some m := by
  cases h : listMax? xs with
  | none => exact ⟨x, by simp [listMax?, h]⟩
  | some k => exact ⟨max x k, by simp [listMax?, h]⟩

theorem listMax?_mem : ∀ (l : List Nat) (m : Nat), listMax? l = some m → m ∈ l := by
  intro l
  induction l with
  | nil => intro m h; simp [listMax?] at h
  | cons x rest ih =>
      intro m h
      cases hr : listMax? rest with
      | none =>
          simp [listMax?, hr] at h
          subst h
          exact List.mem_cons_self x rest
      | some k =>
          simp [listMax?, hr] at h
          subst h
          rcases Nat.le_total x k with hle | hle
          · rw [max_eq_right hle]
            exact List.mem_cons_of_mem x (ih k hr)
          · rw [max_eq_left hle]
            exact List.mem_cons_self x rest

/-- Claim C9: a homepage source narrower than 400 (resp. a landing
source narrower than 800) produces an entry whose fallback `src`
names the file "-Infinity.jpg" inside the output directory — JS
`Math.max` over the empty filtered ladder is -Infinity — and no file
at all is written for such an
image, so the named file does not exist; when the source is at least
as wide as the smallest rung, `src` names the largest produced
jpeg of the largest produced width, which is among the written
files. -/
theorem claim_c9_below_ladder_src_is_infinity :
    (∀ (st : CacheState) (it : HomeItem) (f : SourceFile),
      f.valid = true → f.width < 400 →
      ∃ e, (homeProcess st it f).entry = some (it.num, CachedData.home e) ∧
        e.src = homePath it.num ++ "/-Infinity.jpg" ∧
        (homeProcess st it f).writes = []) ∧
    (∀ (ty : String) (i : Nat) (it : LandingItem) (f : SourceFile),
      it.source = some f → f.valid = true → f.width < 800 →
      ∃ e, (landingStepOne ty i it).1 = some e ∧
        e.src = landingUrl ty i ++ "/-Infinity.jpg" ∧
        (landingStepOne ty i it).2.1 = []) ∧
    (∀ (st : CacheState) (it : HomeItem) (f : SourceFile),
      f.valid = true → 400 ≤ f.width →
      ∃ e m, (homeProcess st it f).entry = some (it.num, CachedData.home e) ∧
        listMax? (imageSizes.filter (fun w => decide (w ≤ f.width))) = some m ∧
        e.src = homePath it.num ++ "/" ++ toString m ++ ".jpg" ∧
        (homeOutDir it ++ "/" ++ toString m ++ ".jpg")
          ∈ (homeProcess st it f).writes) ∧
    (∀ (ty : String) (i : Nat) (it : LandingItem) (f : SourceFile),
      it.source = some f → f.valid = true → 800 ≤ f.width →
      ∃ e m, (landingStepOne ty i it).1 = some e ∧
        listMax? (landingSizes.filter (fun w => decide (w ≤ f.width))) = some m ∧
        e.src = landingUrl ty i ++ "/" ++ toString m ++ ".jpg" ∧
        (landingDir ty i ++ "/" ++ toString m ++ ".jpg")
          ∈ (landingStepOne ty i it).2.1) := by
  refine ⟨?_, ?_, ?_, ?_⟩
  · intro st it f hv hw
    have h4 : ¬ (400 ≤ f.width) := by omega
    have h8 : ¬ (800 ≤ f.width) := by omega
    have h12 : ¬ (1200 ≤ f.width) := by omega
    have hfil : imageSizes.filter (fun w => decide (w ≤ f.width)) = [] := by
      simp [imageSizes, List.filter_cons, h4, h8, h12]
    refine ⟨mkHomeEntry it f [], ?_, ?_, ?_⟩
    · simp [homeProcess, hv, hfil]
    · show homePath it.num ++ "/" ++ jsMaxStr [] ++ ".jpg" = _
      rw [show jsMaxStr [] = "-Infinity" from rfl]
      rw [String.append_assoc, String.append_assoc]
      rfl
    · simp [homeProcess, hv, hfil, concatWrites]
  · intro ty i it f hs hv hw
    have h8 : ¬ (800 ≤ f.width) := by omega
    have h12 : ¬ (1200 ≤ f.width) := by omega
    have h18 : ¬ (1800 ≤ f.width) := by omega
    have hfil : landingSizes.filter (fun w => decide (w ≤ f.width)) = [] := by
      simp [landingSizes, List.filter_cons, h8, h12, h18]
    refine ⟨mkLandingEntry ty i f [], ?_, ?_, ?_⟩
    · simp [landingStepOne, hs, hv, hfil]
    · show landingUrl ty i ++ "/" ++ jsMaxStr [] ++ ".jpg" = _
      rw [show jsMaxStr [] = "-Infinity" from rfl]
      rw [String.append_assoc, String.append_assoc]
      rfl
    · simp [landingStepOne, hs, hv, hfil, concatWrites]
  · intro st it f hv hw4
    have hd4 : decide ((400:Nat) ≤ f.width) = true := by simp [hw4]
    have hfil : imageSizes.filter (fun w => decide (w ≤ f.width))
        = 400 :: ([800, 1200].filter (fun w => decide (w ≤ f.width))) := by
      simp [imageSizes, List.filter_cons, hd4]
    obtain ⟨m, hm⟩ := listMax?_cons_some 400
      ([800, 1200].filter (fun w => decide (w ≤ f.width)))
    have hm2 : listMax? (imageSizes.filter (fun w => decide (w ≤ f.width)))
        = some m := by rw [hfil]; exact hm
    have hmem : m ∈ imageSizes.filter (fun w => decide (w ≤ f.width)) := by
      rw [hfil]
      exact listMax?_mem _ m hm
    refine ⟨mkHomeEntry it f (imageSizes.filter (fun w => decide (w ≤ f.width))),
      m, ?_, hm2, ?_, ?_⟩
    · simp [homeProcess, hv]
    · show homePath it.num ++ "/"
        ++ jsMaxStr (imageSizes.filter (fun w => decide (w ≤ f.width)))
        ++ ".jpg" = _
      rw [show jsMaxStr (imageSizes.filter (fun w => decide (w ≤ f.width)))
        = toString m from by simp [jsMaxStr, hm2]]
    · have hj := (encodingWrites_mem (homeOutDir it)
        (imageSizes.filter (fun w => decide (w ≤ f.width))) m hmem).2.2
      simpa [homeProcess, hv] using hj
  · intro ty i it f hs hv hw8
    have hd8 : decide ((800:Nat) ≤ f.width) = true := by simp [hw8]
    have hfil : landingSizes.filter (fun w => decide (w ≤ f.width))
        = 800 :: ([1200, 1800].filter (fun w => decide (w ≤ f.width))) := by
      simp [landingSizes, List.filter_cons, hd8]
    obtain ⟨m, hm⟩ := listMax?_cons_some 800
      ([1200, 1800].filter (fun w => decide (w ≤ f.width)))
    have hm2 : listMax? (landingSizes.filter (fun w => decide (w ≤ f.width)))
        = some m := by rw [hfil]; exact hm
    have hmem : m ∈ landingSizes.filter (fun w => decide (w ≤ f.width)) := by
      rw [hfil]
      exact listMax?_mem _ m hm
    refine ⟨mkLandingEntry ty i f (landingSizes.filter (fun w => decide (w ≤ f.width))),
      m, ?_, hm2, ?_, ?_⟩
    · simp [landingStepOne, hs, hv]
    · show landingUrl ty i ++ "/"
        ++ jsMaxStr (landingSizes.filter (fun w => decide (w ≤ f.width)))
        ++ ".jpg" = _
      rw [show jsMaxStr (landingSizes.filter (fun w => decide (w ≤ f.width)))
        = toString m from by simp [jsMaxStr, hm2]]
    · have hj := (encodingWrites_mem (landingDir ty i)
        (landingSizes.filter (fun w => decide (w ≤ f.width))) m hmem).2.2
      simpa [landingStepOne, hs, hv] using hj

/-- Witness for claim C9: a concrete 300px-wide source in the
homepage and landing pipelines yields entries whose src names the
never-written file "-Infinity.jpg". -/
theorem claim_c9_witness :
    sampleTinyFile.valid = true ∧
    sampleTinyFile.width < 400 ∧
    sampleTinyFile.width < 800 ∧
    (∃ e, (homeProcess emptyState ⟨2, "2.jpg", some sampleTinyFile⟩
        sampleTinyFile).entry = some (2, CachedData.home e) ∧
      e.src = homePath 2 ++ "/-Infinity.jpg" ∧
      (homeProcess emptyState ⟨2, "2.jpg", some sampleTinyFile⟩
        sampleTinyFile).writes = []) ∧
    (∃ e, (landingStepOne "personal" 0 ⟨"b.jpg", some sampleTinyFile⟩).1
        = some e ∧
      e.src = landingUrl "personal" 0 ++ "/-Infinity.jpg" ∧
      (landingStepOne "personal" 0 ⟨"b.jpg", some sampleTinyFile⟩).2.1 = []) := by
  refine ⟨by decide, by decide, by decide, ?_, ?_⟩
  · exact claim_c9_below_ladder_src_is_infinity.1 emptyState
      ⟨2, "2.jpg", some sampleTinyFile⟩ sampleTinyFile (by decide) (by decide)
  · exact claim_c9_below_ladder_src_is_infinity.2.1 "personal" 0
      ⟨"b.jpg", some sampleTinyFile⟩ sampleTinyFile rfl (by decide) (by decide)
